import Mathlib

/-!
# Verification of the codex CLI excerpt

Shallow embedding of the feature-flag registry (`core/src/features.rs`),
the feature-toggle CLI surface (`cli/src/main.rs`), the login handlers
(`cli/src/login.rs`), and the macOS desktop-app installer helpers
(`cli/src/desktop_app/mac.rs`), together with theorems settling the
claims about them.

Rust strings are modelled at the byte/character level as `List Char`
(all strings the relevant code slices are ASCII, where Rust's byte
indexing and character indexing agree); `BTreeSet` is modelled as a
list ordered by a feature index, with membership as `List.contains`.
-/

namespace Codex

/-! ## `core/src/features.rs`: the feature registry -/

/-- High-level lifecycle stage for a feature (`Stage` in `features.rs`). -/
inductive Stage where
  | Beta : Stage
  | Experimental (name menu_description announcement : String) : Stage
  | Stable : Stage
  | Deprecated : Stage
  | Removed : Stage
deriving DecidableEq, Repr

/-- The `Feature` enum of `features.rs`, variants in declaration order. -/
inductive Feature where
  | GhostCommit
  | ShellTool
  | UnifiedExec
  | ApplyPatchFreeform
  | WebSearchRequest
  | WebSearchCached
  | ExecPolicy
  | WindowsSandbox
  | WindowsSandboxElevated
  | RemoteCompaction
  | RemoteModels
  | ShellSnapshot
  | ChildAgentsMd
  | PowershellUtf8
  | EnableRequestCompression
  | Collab
  | Steer
  | CollaborationModes
  | ResponsesWebsockets
deriving DecidableEq, Repr, Fintype

/-- Index of a variant in declaration order; Rust's derived `Ord` on a
fieldless enum compares by this discriminant. -/
def Feature.idx : Feature → Nat
  | .GhostCommit => 0
  | .ShellTool => 1
  | .UnifiedExec => 2
  | .ApplyPatchFreeform => 3
  | .WebSearchRequest => 4
  | .WebSearchCached => 5
  | .ExecPolicy => 6
  | .WindowsSandbox => 7
  | .WindowsSandboxElevated => 8
  | .RemoteCompaction => 9
  | .RemoteModels => 10
  | .ShellSnapshot => 11
  | .ChildAgentsMd => 12
  | .PowershellUtf8 => 13
  | .EnableRequestCompression => 14
  | .Collab => 15
  | .Steer => 16
  | .CollaborationModes => 17
  | .ResponsesWebsockets => 18

/-- Inverse of `Feature.idx`, used to prove the index injective. -/
def Feature.ofIdx : Nat → Option Feature
  | 0 => some .GhostCommit
  | 1 => some .ShellTool
  | 2 => some .UnifiedExec
  | 3 => some .ApplyPatchFreeform
  | 4 => some .WebSearchRequest
  | 5 => some .WebSearchCached
  | 6 => some .ExecPolicy
  | 7 => some .WindowsSandbox
  | 8 => some .WindowsSandboxElevated
  | 9 => some .RemoteCompaction
  | 10 => some .RemoteModels
  | 11 => some .ShellSnapshot
  | 12 => some .ChildAgentsMd
  | 13 => some .PowershellUtf8
  | 14 => some .EnableRequestCompression
  | 15 => some .Collab
  | 16 => some .Steer
  | 17 => some .CollaborationModes
  | 18 => some .ResponsesWebsockets
  | _ => none

theorem Feature.ofIdx_idx (f : Feature) : Feature.ofIdx f.idx = some f := by
  cases f <;> rfl

theorem Feature.idx_inj {a b : Feature} (h : a.idx = b.idx) : a = b := by
  have := Feature.ofIdx_idx a
  rw [h, Feature.ofIdx_idx b] at this
  exact (Option.some.injEq ..).mp this |>.symm

/-- One row of the static registry (`FeatureSpec` in `features.rs`). -/
structure FeatureSpec where
  id : Feature
  key : String
  stage : Stage
  default_enabled : Bool
deriving DecidableEq, Repr

/-- The static `FEATURES` table of `features.rs`, entry for entry in
source order.  For `powershell_utf8` the `cfg(not(windows))` arm is
taken (stage `Beta`, default off). -/
def FEATURES : List FeatureSpec := [
  { id := .GhostCommit, key := "undo", stage := .Stable, default_enabled := false },
  { id := .ShellTool, key := "shell_tool", stage := .Stable, default_enabled := true },
  { id := .WebSearchRequest, key := "web_search_request", stage := .Stable,
    default_enabled := false },
  { id := .WebSearchCached, key := "web_search_cached", stage := .Beta,
    default_enabled := false },
  { id := .UnifiedExec, key := "unified_exec",
    stage := .Experimental "后台终端" "在后台运行耗时的终端命令。"
      "新功能！可在后台运行耗时命令。到 /experimental 启用。",
    default_enabled := false },
  { id := .ShellSnapshot, key := "shell_snapshot",
    stage := .Experimental "Shell 快照" "保存 shell 环境快照，避免每次命令都重跑登录脚本。"
      "新功能！试试 Shell 快照，让 Codex 更快。到 /experimental 启用。",
    default_enabled := false },
  { id := .ChildAgentsMd, key := "child_agents_md", stage := .Beta,
    default_enabled := false },
  { id := .ApplyPatchFreeform, key := "apply_patch_freeform", stage := .Beta,
    default_enabled := false },
  { id := .ExecPolicy, key := "exec_policy", stage := .Beta, default_enabled := true },
  { id := .WindowsSandbox, key := "experimental_windows_sandbox", stage := .Beta,
    default_enabled := false },
  { id := .WindowsSandboxElevated, key := "elevated_windows_sandbox", stage := .Beta,
    default_enabled := false },
  { id := .RemoteCompaction, key := "remote_compaction", stage := .Beta,
    default_enabled := true },
  { id := .RemoteModels, key := "remote_models", stage := .Beta, default_enabled := true },
  { id := .PowershellUtf8, key := "powershell_utf8", stage := .Beta,
    default_enabled := false },
  { id := .EnableRequestCompression, key := "enable_request_compression", stage := .Beta,
    default_enabled := false },
  { id := .Collab, key := "collab",
    stage := .Experimental "多代理" "允许 Codex 按需生成并与其他代理协作（原名 `collab`）。"
      "新功能！Codex 现在可生成其他代理并协同解决问题。到 /experimental 启用。",
    default_enabled := false },
  { id := .Steer, key := "steer",
    stage := .Experimental "引导会话" "Enter 立即提交；任务运行时用 Tab 将消息加入队列。"
      "新功能！试试引导模式：Enter 立即提交，Tab 入队。到 /experimental 启用。",
    default_enabled := false },
  { id := .CollaborationModes, key := "collaboration_modes", stage := .Beta,
    default_enabled := false },
  { id := .ResponsesWebsockets, key := "responses_websockets", stage := .Beta,
    default_enabled := false }
]

/-- `Feature::info`: the first `FEATURES` entry whose `id` matches.  The
Rust code unwraps with an `unreachable!`; the embedding returns the
`Option` so that the claim that the branch is dead can be stated. -/
def Feature.info (f : Feature) : Option FeatureSpec :=
  FEATURES.find? (fun spec => spec.id = f)

/-- `Feature::key` (total because `Feature.info` never misses; the
default never shows through, see `info_isSome`). -/
def Feature.key (f : Feature) : String :=
  ((f.info).map FeatureSpec.key).getD ""

/-- `Feature::stage`. -/
def Feature.stage (f : Feature) : Stage :=
  ((f.info).map FeatureSpec.stage).getD .Stable

/-- `Feature::default_enabled`. -/
def Feature.default_enabled (f : Feature) : Bool :=
  ((f.info).map FeatureSpec.default_enabled).getD false

/-- Modelled from the spec: the `features/legacy.rs` module (`mod legacy`)
is not part of the excerpt.  Per the spec, the `[features]` table accepts
"legacy key aliases" that are "remapped" to current features, "with a
deprecation notice emitted on alias use".  The alias names are taken from
the legacy toggle fields visible in `features.rs` and from the alias
exercised by `core/tests/suite/deprecation_notice.rs`
(`use_experimental_unified_exec_tool` → `UnifiedExec`).  Everything
proved about this map is independent of the exact alias list. -/
def legacy_feature_for_key (key : String) : Option Feature :=
  if key = "use_experimental_unified_exec_tool" then some .UnifiedExec
  else if key = "experimental_use_unified_exec_tool" then some .UnifiedExec
  else if key = "experimental_use_freeform_apply_patch" then some .ApplyPatchFreeform
  else if key = "include_apply_patch_tool" then some .ApplyPatchFreeform
  else if key = "web_search" then some .WebSearchRequest
  else none

/-- `feature_for_key`: canonical keys first, then the legacy aliases. -/
def feature_for_key (key : String) : Option Feature :=
  match FEATURES.find? (fun spec => spec.key = key) with
  | some spec => some spec.id
  | none => legacy_feature_for_key key

/-- `is_known_feature_key`. -/
def is_known_feature_key (key : String) : Bool :=
  (feature_for_key key).isSome

/-- `LegacyFeatureUsage` (alias string plus target feature). -/
structure LegacyFeatureUsage where
  alias_ : String
  feature : Feature
deriving DecidableEq, Repr

/-- Ordered insertion into the `enabled` set, modelling
`BTreeSet::insert` on the derived feature order; an already-present
element is not duplicated. -/
def insertFeat (x : Feature) : List Feature → List Feature
  | [] => [x]
  | y :: ys =>
    if x.idx < y.idx then x :: y :: ys
    else if x.idx = y.idx then y :: ys
    else y :: insertFeat x ys

/-- `BTreeSet::remove` on the `enabled` set: drop the element. -/
def removeFeat (x : Feature) (l : List Feature) : List Feature :=
  l.filter (fun y => y ≠ x)

/-- `BTreeSet::insert` for the legacy-usage set: add if absent.  The
claims never observe iteration order of this set, so a set model
suffices. -/
def insertUsage (u : LegacyFeatureUsage) (l : List LegacyFeatureUsage) :
    List LegacyFeatureUsage :=
  if u ∈ l then l else l ++ [u]

/-- The runtime `Features` container: enabled set plus legacy-usage
record. -/
structure Features where
  enabled : List Feature
  legacy_usages : List LegacyFeatureUsage
deriving DecidableEq, Repr

/-- `Features::enabled(&self, f)` (membership query; named `isEnabled`
because the field already carries the source name). -/
def Features.isEnabled (st : Features) (f : Feature) : Bool :=
  st.enabled.contains f

/-- `Features::enable`. -/
def Features.enable (st : Features) (f : Feature) : Features :=
  { st with enabled := insertFeat f st.enabled }

/-- `Features::disable`. -/
def Features.disable (st : Features) (f : Feature) : Features :=
  { st with enabled := removeFeat f st.enabled }

/-- `Features::record_legacy_usage_force`. -/
def Features.record_legacy_usage_force (st : Features) (al : String)
    (f : Feature) : Features :=
  { st with legacy_usages := insertUsage ⟨al, f⟩ st.legacy_usages }

/-- `Features::record_legacy_usage`: skip when the alias is already the
canonical key. -/
def Features.record_legacy_usage (st : Features) (al : String)
    (f : Feature) : Features :=
  if al = f.key then st else st.record_legacy_usage_force al f

/-- `Features::with_defaults`: insert every default-enabled spec id. -/
def Features.with_defaults : Features :=
  { enabled := FEATURES.foldl
      (fun set spec => if spec.default_enabled then insertFeat spec.id set else set) [],
    legacy_usages := [] }

/-- One step of `Features::apply_map`: process a single `(key, value)`
entry of the table. -/
def Features.applyEntry (st : Features) (kv : String × Bool) : Features :=
  match feature_for_key kv.1 with
  | some feat =>
    let st := if kv.1 ≠ feat.key then st.record_legacy_usage kv.1 feat else st
    if kv.2 then st.enable feat else st.disable feat
  | none => st

/-- `Features::apply_map`: fold over the table entries in order (a
`BTreeMap` iterates in ascending key order; the embedding takes the
ordered entry list as given). -/
def Features.apply_map (st : Features) (m : List (String × Bool)) : Features :=
  m.foldl Features.applyEntry st

/-! ## Basic facts about the registry and the set operations -/

theorem mem_insertFeat {a x : Feature} {l : List Feature} :
    a ∈ insertFeat x l ↔ a = x ∨ a ∈ l := by
  induction l with
  | nil => simp [insertFeat]
  | cons y ys ih =>
    by_cases hlt : x.idx < y.idx
    · simp [insertFeat, hlt]
    · by_cases heq : x.idx = y.idx
      · have hxy : x = y := Feature.idx_inj heq
        subst hxy
        simp [insertFeat, hlt]
      · simp [insertFeat, hlt, heq, ih]
        tauto

theorem mem_removeFeat {a x : Feature} {l : List Feature} :
    a ∈ removeFeat x l ↔ a ∈ l ∧ a ≠ x := by
  simp [removeFeat, List.mem_filter]

theorem isEnabled_iff (st : Features) (f : Feature) :
    st.isEnabled f = true ↔ f ∈ st.enabled := by
  simp [Features.isEnabled]

theorem info_isSome (f : Feature) : (Feature.info f).isSome := by
  revert f
  decide

theorem keys_nodup : (FEATURES.map (fun s => s.key)).Nodup := by
  decide

theorem length_filter_le_one_of_nodup {α β : Type _} [DecidableEq β] (g : α → β) (k : β) :
    ∀ l : List α, (l.map g).Nodup → (l.filter (fun a => g a = k)).length ≤ 1 := by
  intro l
  induction l with
  | nil => simp
  | cons a t ih =>
    intro h
    simp only [List.map_cons, List.nodup_cons] at h
    by_cases hk : g a = k
    · have ht : t.filter (fun b => decide (g b = k)) = [] := by
        apply List.filter_eq_nil_iff.mpr
        intro b hb hbk
        have hgb : g b = k := of_decide_eq_true hbk
        exact h.1 (by rw [hk, ← hgb]; exact List.mem_map_of_mem _ hb)
      simp [List.filter_cons, hk, ht]
    · simpa [List.filter_cons, hk] using ih h.2

theorem length_filter_key_le_one (k : String) :
    (FEATURES.filter (fun s => s.key = k)).length ≤ 1 :=
  length_filter_le_one_of_nodup (fun s => s.key) k FEATURES keys_nodup

theorem feature_for_key_key (f : Feature) : feature_for_key f.key = some f := by
  revert f
  decide

theorem feature_for_key_none_of_unknown {k : String}
    (h : is_known_feature_key k = false) : feature_for_key k = none := by
  simpa [is_known_feature_key, Option.isSome_iff_exists] using h

theorem applyEntry_unknown (st : Features) (kv : String × Bool)
    (h : is_known_feature_key kv.1 = false) : st.applyEntry kv = st := by
  simp [Features.applyEntry, feature_for_key_none_of_unknown h]

theorem enable_legacy (st : Features) (f : Feature) :
    (st.enable f).legacy_usages = st.legacy_usages := rfl

theorem disable_legacy (st : Features) (f : Feature) :
    (st.disable f).legacy_usages = st.legacy_usages := rfl

/-! ## Claim theorems for the registry -/

/-- C2: every `Feature` variant has exactly one entry in `FEATURES` (so
`Feature.key`, `Feature.stage`, `Feature.default_enabled` are total and
the `unreachable!` branch of `Feature::info` is dead), and the canonical
keys of the `FEATURES` entries are pairwise distinct, so `feature_for_key`
matches at most one registry entry for any key string. -/
theorem feature_registry_wellformed :
    (∀ f : Feature,
      (FEATURES.filter (fun s => s.id = f)).length = 1 ∧ (Feature.info f).isSome)
    ∧ (FEATURES.map (fun s => s.key)).Nodup
    ∧ ∀ k : String, (FEATURES.filter (fun s => s.key = k)).length ≤ 1 :=
  ⟨by decide, keys_nodup, length_filter_key_le_one⟩

/-- C10: `Features.apply_map` is a no-op on a map all of whose keys are
unknown (both the enabled set and the legacy-usage record are exactly
unchanged), and applying an entry keyed by a feature's canonical key
never adds a legacy-usage record. -/
theorem apply_map_frame (st : Features) :
    (∀ m : List (String × Bool),
      (∀ kv ∈ m, is_known_feature_key kv.1 = false) → st.apply_map m = st)
    ∧ ∀ (f : Feature) (v : Bool),
      (st.apply_map [(f.key, v)]).legacy_usages = st.legacy_usages := by
  constructor
  · intro m
    induction m generalizing st with
    | nil => intro _; rfl
    | cons kv t ih =>
      intro h
      have h1 : st.applyEntry kv = st :=
        applyEntry_unknown st kv (h kv (List.mem_cons_self kv t))
      have ht : ∀ kv' ∈ t, is_known_feature_key kv'.1 = false :=
        fun kv' hkv' => h kv' (List.mem_cons_of_mem kv hkv')
      calc st.apply_map (kv :: t) = (st.applyEntry kv).apply_map t := rfl
        _ = st.apply_map t := by rw [h1]
        _ = st := ih st ht
  · intro f v
    have : st.apply_map [(f.key, v)] = st.applyEntry (f.key, v) := rfl
    rw [this]
    simp only [Features.applyEntry, feature_for_key_key]
    cases v <;> simp [Features.enable, Features.disable]

/-- Witness for C10 at concrete inputs: the single unknown key
`"totally_unknown"` leaves the empty state unchanged, and the canonical
key of `UnifiedExec` adds no legacy-usage record. -/
theorem apply_map_frame_witness :
    Features.apply_map ⟨[], []⟩ [("totally_unknown", true)] = ⟨[], []⟩ ∧
    (Features.apply_map ⟨[], []⟩ [(Feature.key .UnifiedExec, true)]).legacy_usages = [] :=
  ⟨(apply_map_frame ⟨[], []⟩).1 [("totally_unknown", true)] (by decide),
   (apply_map_frame ⟨[], []⟩).2 .UnifiedExec true⟩

/-! ## `Features::from_config` and its precedence pipeline -/

/-- The `[tools]` table fields relevant to features (`ConfigToml.tools`). -/
structure ToolsToml where
  web_search : Option Bool
deriving DecidableEq, Repr

/-- `FeaturesToml`: the flattened `[features]` table; a `BTreeMap` is
embedded as its ordered entry list. -/
structure FeaturesToml where
  entries : List (String × Bool)
deriving DecidableEq, Repr

/-- The fields of `ConfigToml` that `Features::from_config` reads. -/
structure ConfigToml where
  experimental_use_freeform_apply_patch : Option Bool
  experimental_use_unified_exec_tool : Option Bool
  tools : Option ToolsToml
  features : Option FeaturesToml
deriving DecidableEq, Repr

/-- The fields of `ConfigProfile` that `Features::from_config` reads. -/
structure ConfigProfile where
  include_apply_patch_tool : Option Bool
  experimental_use_freeform_apply_patch : Option Bool
  experimental_use_unified_exec_tool : Option Bool
  tools_web_search : Option Bool
  features : Option FeaturesToml
deriving DecidableEq, Repr

/-- `LegacyFeatureToggles` (declared in the missing `features/legacy.rs`;
its four fields are visible at the construction sites in `features.rs`). -/
structure LegacyFeatureToggles where
  include_apply_patch_tool : Option Bool
  experimental_use_freeform_apply_patch : Option Bool
  experimental_use_unified_exec_tool : Option Bool
  tools_web_search : Option Bool
deriving DecidableEq, Repr

/-- `FeatureOverrides` (explicit CLI/session overrides). -/
structure FeatureOverrides where
  include_apply_patch_tool : Option Bool
  web_search_request : Option Bool
deriving DecidableEq, Repr

/-- Applying one optional legacy toggle: record the alias use and
enable/disable the mapped feature. -/
def applyLegacyField (st : Features) (al : String) (f : Feature) :
    Option Bool → Features
  | none => st
  | some v =>
    let st := st.record_legacy_usage al f
    if v then st.enable f else st.disable f

/-- Modelled from the spec: `LegacyFeatureToggles::apply` lives in the
missing `features/legacy.rs`.  Per the spec, legacy keys are "remapped"
to current features with "a deprecation notice emitted on alias use":
each set field enables or disables its target feature
(`include_apply_patch_tool`/`experimental_use_freeform_apply_patch` →
`ApplyPatchFreeform`, `experimental_use_unified_exec_tool` →
`UnifiedExec`, `tools_web_search` → `WebSearchRequest`) and records the
alias, applied in field order. -/
def LegacyFeatureToggles.apply (t : LegacyFeatureToggles) (st : Features) : Features :=
  let st := applyLegacyField st "include_apply_patch_tool" .ApplyPatchFreeform
    t.include_apply_patch_tool
  let st := applyLegacyField st "experimental_use_freeform_apply_patch" .ApplyPatchFreeform
    t.experimental_use_freeform_apply_patch
  let st := applyLegacyField st "use_experimental_unified_exec_tool" .UnifiedExec
    t.experimental_use_unified_exec_tool
  let st := applyLegacyField st "tools.web_search" .WebSearchRequest
    t.tools_web_search
  st

/-- The `base_legacy` record built in `Features::from_config`. -/
def base_legacy_toggles (cfg : ConfigToml) : LegacyFeatureToggles :=
  { include_apply_patch_tool := none,
    experimental_use_freeform_apply_patch := cfg.experimental_use_freeform_apply_patch,
    experimental_use_unified_exec_tool := cfg.experimental_use_unified_exec_tool,
    tools_web_search := cfg.tools.bind ToolsToml.web_search }

/-- The `profile_legacy` record built in `Features::from_config`. -/
def profile_legacy_toggles (p : ConfigProfile) : LegacyFeatureToggles :=
  { include_apply_patch_tool := p.include_apply_patch_tool,
    experimental_use_freeform_apply_patch := p.experimental_use_freeform_apply_patch,
    experimental_use_unified_exec_tool := p.experimental_use_unified_exec_tool,
    tools_web_search := p.tools_web_search }

/-- `FeatureOverrides::apply`: route the explicit overrides through a
`LegacyFeatureToggles` with the two populated fields. -/
def FeatureOverrides.toToggles (ov : FeatureOverrides) : LegacyFeatureToggles :=
  { include_apply_patch_tool := ov.include_apply_patch_tool,
    experimental_use_freeform_apply_patch := none,
    experimental_use_unified_exec_tool := none,
    tools_web_search := ov.web_search_request }

/-- Apply an optional `[features]` table (`if let Some(..) = .. { apply_map }`). -/
def applyFeaturesTable (st : Features) : Option FeaturesToml → Features
  | some ft => st.apply_map ft.entries
  | none => st

/-- `Features::from_config`: defaults, then base legacy keys, then the
base `[features]` table, then profile legacy keys, then the profile
`[features]` table, then explicit overrides. -/
def Features.from_config (cfg : ConfigToml) (profile : ConfigProfile)
    (ov : FeatureOverrides) : Features :=
  let features := Features.with_defaults
  let features := (base_legacy_toggles cfg).apply features
  let features := applyFeaturesTable features cfg.features
  let features := (profile_legacy_toggles profile).apply features
  let features := applyFeaturesTable features profile.features
  ov.toToggles.apply features

/-! ## Assignment semantics: which source set a feature last -/

/-- The feature assignments contributed by one optional legacy field. -/
def optAssign (f : Feature) : Option Bool → List (Feature × Bool)
  | none => []
  | some v => [(f, v)]

/-- The ordered feature assignments of a legacy toggle source. -/
def LegacyFeatureToggles.assignments (t : LegacyFeatureToggles) :
    List (Feature × Bool) :=
  optAssign .ApplyPatchFreeform t.include_apply_patch_tool ++
  optAssign .ApplyPatchFreeform t.experimental_use_freeform_apply_patch ++
  optAssign .UnifiedExec t.experimental_use_unified_exec_tool ++
  optAssign .WebSearchRequest t.tools_web_search

/-- The ordered feature assignments of a `[features]` table: each entry
with a known key (canonical or legacy) assigns its value to the mapped
feature; unknown keys assign nothing. -/
def mapAssignments (entries : List (String × Bool)) : List (Feature × Bool) :=
  entries.filterMap (fun kv => (feature_for_key kv.1).map (fun f => (f, kv.2)))

/-- Assignments of an optional `[features]` table. -/
def tableAssignments : Option FeaturesToml → List (Feature × Bool)
  | some ft => mapAssignments ft.entries
  | none => []

/-- All assignments applied by `Features.from_config`, in application
order: base legacy keys, base table, profile legacy keys, profile table,
explicit overrides. -/
def from_config_assignments (cfg : ConfigToml) (profile : ConfigProfile)
    (ov : FeatureOverrides) : List (Feature × Bool) :=
  (base_legacy_toggles cfg).assignments ++
  tableAssignments cfg.features ++
  (profile_legacy_toggles profile).assignments ++
  tableAssignments profile.features ++
  ov.toToggles.assignments

/-- The value assigned to `f` by the *last* assignment touching `f`, if
any. -/
def lastSet (f : Feature) : List (Feature × Bool) → Option Bool
  | [] => none
  | p :: rest =>
    match lastSet f rest with
    | some v => some v
    | none => if p.1 = f then some p.2 else none

theorem lastSet_append (f : Feature) (l₁ l₂ : List (Feature × Bool)) :
    lastSet f (l₁ ++ l₂) =
      match lastSet f l₂ with
      | some v => some v
      | none => lastSet f l₁ := by
  induction l₁ with
  | nil =>
    simp only [List.nil_append, lastSet]
    cases lastSet f l₂ <;> rfl
  | cons p t ih =>
    have hstep : lastSet f ((p :: t) ++ l₂) =
        match lastSet f (t ++ l₂) with
        | some v => some v
        | none => if p.1 = f then some p.2 else none := rfl
    have hpt : lastSet f (p :: t) =
        match lastSet f t with
        | some v => some v
        | none => if p.1 = f then some p.2 else none := rfl
    rw [hstep, ih]
    cases hl₂ : lastSet f l₂ <;> cases hlt : lastSet f t <;> simp [hpt, hl₂, hlt]

/-- A state transformer `step` realises the assignment list `l` when,
for every feature, the transformed enabled-state is the last value `l`
assigns to it, defaulting to the incoming state. -/
def Tracks (step : Features → Features) (l : List (Feature × Bool)) : Prop :=
  ∀ st f, (step st).isEnabled f = (lastSet f l).getD (st.isEnabled f)

theorem Tracks.comp {s₁ s₂ : Features → Features} {l₁ l₂ : List (Feature × Bool)}
    (h₁ : Tracks s₁ l₁) (h₂ : Tracks s₂ l₂) :
    Tracks (fun st => s₂ (s₁ st)) (l₁ ++ l₂) := by
  intro st f
  rw [h₂, h₁, lastSet_append]
  cases lastSet f l₂ <;> cases lastSet f l₁ <;> simp

theorem isEnabled_enable (st : Features) (f g : Feature) :
    (st.enable f).isEnabled g = (g == f || st.isEnabled g) := by
  rw [Bool.eq_iff_iff]
  simp only [Bool.or_eq_true, beq_iff_eq, isEnabled_iff]
  exact mem_insertFeat

theorem isEnabled_disable (st : Features) (f g : Feature) :
    (st.disable f).isEnabled g = (st.isEnabled g && !(g == f)) := by
  rw [Bool.eq_iff_iff]
  simp only [Bool.and_eq_true, Bool.not_eq_true', beq_eq_false_iff_ne, isEnabled_iff]
  exact mem_removeFeat

theorem enabled_record_legacy_usage (st : Features) (al : String) (f : Feature) :
    (st.record_legacy_usage al f).enabled = st.enabled := by
  unfold Features.record_legacy_usage Features.record_legacy_usage_force
  split <;> rfl

theorem isEnabled_record_legacy_usage (st : Features) (al : String) (f g : Feature) :
    (st.record_legacy_usage al f).isEnabled g = st.isEnabled g := by
  simp [Features.isEnabled, enabled_record_legacy_usage]

theorem tracks_toggle (f : Feature) (v : Bool) :
    Tracks (fun st => if v then st.enable f else st.disable f) [(f, v)] := by
  intro st g
  by_cases hgf : g = f
  · subst hgf
    cases v <;> simp [lastSet, isEnabled_enable, isEnabled_disable]
  · cases v <;> simp [lastSet, isEnabled_enable, isEnabled_disable, hgf, Ne.symm hgf]

theorem tracks_applyLegacyField (al : String) (f : Feature) (o : Option Bool) :
    Tracks (fun st => applyLegacyField st al f o) (optAssign f o) := by
  cases o with
  | none => intro st g; simp [applyLegacyField, optAssign, lastSet]
  | some v =>
    intro st g
    have h := tracks_toggle f v (st.record_legacy_usage al f) g
    simpa [applyLegacyField, optAssign, isEnabled_record_legacy_usage] using h

theorem tracks_legacy (t : LegacyFeatureToggles) :
    Tracks t.apply t.assignments := by
  have h := ((((tracks_applyLegacyField "include_apply_patch_tool" .ApplyPatchFreeform
      t.include_apply_patch_tool).comp
    (tracks_applyLegacyField "experimental_use_freeform_apply_patch" .ApplyPatchFreeform
      t.experimental_use_freeform_apply_patch)).comp
    (tracks_applyLegacyField "use_experimental_unified_exec_tool" .UnifiedExec
      t.experimental_use_unified_exec_tool)).comp
    (tracks_applyLegacyField "tools.web_search" .WebSearchRequest
      t.tools_web_search))
  intro st f
  have hh := h st f
  simpa [LegacyFeatureToggles.apply, LegacyFeatureToggles.assignments,
    List.append_assoc] using hh

theorem tracks_applyEntry (kv : String × Bool) :
    Tracks (fun st => st.applyEntry kv) (mapAssignments [kv]) := by
  intro st f
  cases hk : feature_for_key kv.1 with
  | none =>
    simp [Features.applyEntry, hk, mapAssignments, lastSet]
  | some feat =>
    have hm : mapAssignments [kv] = [(feat, kv.2)] := by
      simp [mapAssignments, hk]
    rw [hm]
    simp only [Features.applyEntry, hk]
    have hbase : (if kv.1 ≠ feat.key then st.record_legacy_usage kv.1 feat else st).isEnabled f
        = st.isEnabled f := by
      split
      · exact isEnabled_record_legacy_usage st kv.1 feat f
      · rfl
    have h1 := tracks_toggle feat kv.2
      (if kv.1 ≠ feat.key then st.record_legacy_usage kv.1 feat else st) f
    simp only at h1
    rw [hbase] at h1
    exact h1

theorem tracks_apply_map (entries : List (String × Bool)) :
    Tracks (fun st => st.apply_map entries) (mapAssignments entries) := by
  induction entries with
  | nil =>
    intro st f
    simp [Features.apply_map, mapAssignments, lastSet]
  | cons kv t ih =>
    have hsplit : mapAssignments (kv :: t) = mapAssignments [kv] ++ mapAssignments t := by
      cases hk : feature_for_key kv.1 <;>
        simp [mapAssignments, List.filterMap_cons, hk]
    intro st f
    have hcomp := Tracks.comp (tracks_applyEntry kv) ih st f
    rw [hsplit]
    exact hcomp

theorem tracks_table (o : Option FeaturesToml) :
    Tracks (fun st => applyFeaturesTable st o) (tableAssignments o) := by
  cases o with
  | none => intro st f; simp [applyFeaturesTable, tableAssignments, lastSet]
  | some ft => exact tracks_apply_map ft.entries

theorem isEnabled_with_defaults (f : Feature) :
    Features.with_defaults.isEnabled f = Feature.default_enabled f := by
  revert f
  decide

/-- C1: `Features.from_config` applies the toggle sources in the fixed
order defaults → base legacy keys → base `[features]` table → profile
legacy keys → profile `[features]` table → explicit overrides: for every
feature, the result is the value of the *last* assignment to it in that
ordered concatenation of sources, falling back to the built-in default
when no source sets it — so a later source always wins over an earlier
one. -/
theorem from_config_precedence (cfg : ConfigToml) (profile : ConfigProfile)
    (ov : FeatureOverrides) (f : Feature) :
    (Features.from_config cfg profile ov).isEnabled f =
      (lastSet f (from_config_assignments cfg profile ov)).getD
        (Feature.default_enabled f) := by
  have h := ((((tracks_legacy (base_legacy_toggles cfg)).comp
      (tracks_table cfg.features)).comp
      (tracks_legacy (profile_legacy_toggles profile))).comp
      (tracks_table profile.features)).comp
      (tracks_legacy ov.toToggles)
  have hh := h Features.with_defaults f
  rw [isEnabled_with_defaults f] at hh
  simpa [Features.from_config, from_config_assignments, List.append_assoc] using hh

/-! ## `cli/src/main.rs`: feature toggle flags -/

/-- `FeatureToggles`: the repeatable `--enable` / `--disable` flags. -/
structure FeatureToggles where
  enable : List String
  disable : List String
deriving DecidableEq, Repr

/-- `FeatureToggles::validate_feature`. -/
def FeatureToggles.validate_feature (feature : String) : Except String Unit :=
  if is_known_feature_key feature then .ok () else .error ("未知功能开关：" ++ feature)

/-- One of the two loops of `FeatureToggles::to_overrides`: validate each
name and push `features.<name><suffix>` onto the accumulated vector,
propagating the first validation error. -/
def pushToggleOverrides (suffix : String) : List String → List String →
    Except String (List String)
  | [], acc => .ok acc
  | f :: rest, acc =>
    match FeatureToggles.validate_feature f with
    | .error e => .error e
    | .ok _ => pushToggleOverrides suffix rest (acc ++ ["features." ++ f ++ suffix])

/-- `FeatureToggles::to_overrides`: the `--enable` loop (suffix `=true`)
then the `--disable` loop (suffix `=false`). -/
def FeatureToggles.to_overrides (t : FeatureToggles) : Except String (List String) :=
  match pushToggleOverrides "=true" t.enable [] with
  | .error e => .error e
  | .ok v =>
    match pushToggleOverrides "=false" t.disable v with
    | .error e => .error e
    | .ok v => .ok v

theorem find?_append {α : Type _} (p : α → Bool) (l₁ l₂ : List α) :
    (l₁ ++ l₂).find? p =
      match l₁.find? p with
      | some a => some a
      | none => l₂.find? p := by
  induction l₁ with
  | nil => simp
  | cons a t ih =>
    cases h : p a with
    | true => simp [List.find?_cons, h]
    | false => simp [List.find?_cons, h, ih]

theorem pushToggleOverrides_ok (suffix : String) (names : List String) :
    ∀ acc, (∀ n ∈ names, is_known_feature_key n = true) →
      pushToggleOverrides suffix names acc =
        .ok (acc ++ names.map (fun n => "features." ++ n ++ suffix)) := by
  induction names with
  | nil => intro acc _; simp [pushToggleOverrides]
  | cons f rest ih =>
    intro acc h
    have hf : is_known_feature_key f = true := h f (List.mem_cons_self f rest)
    have hr := ih (acc ++ ["features." ++ f ++ suffix])
      (fun n hn => h n (List.mem_cons_of_mem f hn))
    simp [pushToggleOverrides, FeatureToggles.validate_feature, hf, hr]

theorem pushToggleOverrides_err (suffix : String) (names : List String) :
    ∀ acc n, names.find? (fun m => ! is_known_feature_key m) = some n →
      pushToggleOverrides suffix names acc = .error ("未知功能开关：" ++ n) := by
  induction names with
  | nil => intro acc n h; simp at h
  | cons f rest ih =>
    intro acc n h
    cases hf : is_known_feature_key f with
    | true =>
      rw [List.find?_cons] at h
      simp only [hf, Bool.not_true] at h
      simp [pushToggleOverrides, FeatureToggles.validate_feature, hf, ih _ n h]
    | false =>
      rw [List.find?_cons] at h
      simp only [hf, Bool.not_false] at h
      cases h
      simp [pushToggleOverrides, FeatureToggles.validate_feature, hf]

/-- C7: when every `--enable`/`--disable` name is a known feature key,
`FeatureToggles.to_overrides` returns `features.<name>=true` for the
enabled names in order followed by `features.<name>=false` for the
disabled names in order; and as soon as any listed name (enables first,
then disables) is unknown, it returns the error for the first such
name. -/
theorem to_overrides_spec (t : FeatureToggles) :
    ((∀ n ∈ t.enable ++ t.disable, is_known_feature_key n = true) →
      t.to_overrides = .ok
        (t.enable.map (fun n => "features." ++ n ++ "=true") ++
         t.disable.map (fun n => "features." ++ n ++ "=false")))
    ∧ ∀ n, (t.enable ++ t.disable).find? (fun m => ! is_known_feature_key m) = some n →
      t.to_overrides = .error ("未知功能开关：" ++ n) := by
  constructor
  · intro h
    have he := pushToggleOverrides_ok "=true" t.enable []
      (fun n hn => h n (List.mem_append_left _ hn))
    have hd := pushToggleOverrides_ok "=false" t.disable
      (t.enable.map (fun n => "features." ++ n ++ "=true"))
      (fun n hn => h n (List.mem_append_right _ hn))
    simp [FeatureToggles.to_overrides, he, hd]
  · intro n h
    rw [find?_append] at h
    cases hfind : t.enable.find? (fun m => ! is_known_feature_key m) with
    | some m =>
      rw [hfind] at h
      have hmn : some m = some n := h
      cases hmn
      simp [FeatureToggles.to_overrides,
        pushToggleOverrides_err "=true" t.enable [] n hfind]
    | none =>
      rw [hfind] at h
      have hdisable : t.disable.find? (fun m => ! is_known_feature_key m) = some n := h
      have hall : ∀ m ∈ t.enable, is_known_feature_key m = true := by
        intro m hm
        have := List.find?_eq_none.mp hfind m hm
        simpa using this
      have he := pushToggleOverrides_ok "=true" t.enable [] hall
      have hd := pushToggleOverrides_err "=false" t.disable
        (t.enable.map (fun n => "features." ++ n ++ "=true")) n hdisable
      simp [FeatureToggles.to_overrides, he, hd]

/-- Witness for C7: with `--enable collab --disable undo` everything is
known and the override strings are produced; with `--disable nope` an
error is raised for `nope`. -/
theorem to_overrides_spec_witness :
    FeatureToggles.to_overrides ⟨["collab"], ["undo"]⟩ =
      .ok ["features.collab=true", "features.undo=false"] ∧
    FeatureToggles.to_overrides ⟨["collab"], ["nope"]⟩ =
      .error "未知功能开关：nope" :=
  ⟨(to_overrides_spec ⟨["collab"], ["undo"]⟩).1 (by decide),
   (to_overrides_spec ⟨["collab"], ["nope"]⟩).2 "nope" (by decide)⟩

/-! ## `cli/src/login.rs`: key redaction and handler exit codes -/

/-- `safe_format_key`: keys are byte strings; Rust's `key.len()` and the
slices `key[..8]`, `key[key.len() - 5..]` operate on bytes, embedded
here as `List Char` positions (API keys are ASCII, where the two
coincide). -/
def safe_format_key (key : List Char) : List Char :=
  if key.length ≤ 13 then "***".toList
  else key.take 8 ++ "***".toList ++ key.drop (key.length - 5)

/-- `ForcedLoginMethod` (from `codex_protocol::config_types`). -/
inductive ForcedLoginMethod where
  | Api
  | Chatgpt
deriving DecidableEq, Repr

/-- The fields of `Config` the login handlers read. -/
structure LoginConfig where
  forced_login_method : Option ForcedLoginMethod
deriving DecidableEq, Repr

/-- `load_config_or_exit`: parse the `-c` overrides, then load the
config; each failure becomes an immediate stderr message and exit 1,
embedded as the `Except.error` carrying the printed message and the exit
status. -/
def load_config_or_exit (parseRes : Except String Unit)
    (loadRes : Except String LoginConfig) : Except (String × Nat) LoginConfig :=
  match parseRes with
  | .error e => .error ("解析 -c 覆盖项失败：" ++ e, 1)
  | .ok _ =>
    match loadRes with
    | .error e => .error ("加载配置失败：" ++ e, 1)
    | .ok c => .ok c

/-- The authentication found by `CodexAuth::from_auth_storage`: API-key
mode carries the outcome of `auth.get_token()`. -/
inductive AuthModeState where
  | apiKey (tokenRes : Except String (List Char))
  | chatgpt

/-- `run_login_with_chatgpt`, as the final stderr message and process
exit status it produces, given the outcomes of its fallible steps. -/
def run_login_with_chatgpt (parseRes : Except String Unit)
    (loadRes : Except String LoginConfig) (loginRes : Except String Unit) :
    String × Nat :=
  match load_config_or_exit parseRes loadRes with
  | .error mc => mc
  | .ok config =>
    if config.forced_login_method = some .Api then
      ("已禁用 ChatGPT 登录，请改用 API Key 登录。", 1)
    else
      match loginRes with
      | .ok _ => ("登录成功", 0)
      | .error e => ("登录失败：" ++ e, 1)

/-- `run_login_with_api_key`, as message and exit status. -/
def run_login_with_api_key (parseRes : Except String Unit)
    (loadRes : Except String LoginConfig) (apiRes : Except String Unit) :
    String × Nat :=
  match load_config_or_exit parseRes loadRes with
  | .error mc => mc
  | .ok config =>
    if config.forced_login_method = some .Chatgpt then
      ("已禁用 API Key 登录，请改用 ChatGPT 登录。", 1)
    else
      match apiRes with
      | .ok _ => ("登录成功", 0)
      | .error e => ("登录失败：" ++ e, 1)

/-- `run_login_status`, as message and exit status. -/
def run_login_status (parseRes : Except String Unit)
    (loadRes : Except String LoginConfig)
    (authRes : Except String (Option AuthModeState)) : String × Nat :=
  match load_config_or_exit parseRes loadRes with
  | .error mc => mc
  | .ok _ =>
    match authRes with
    | .ok (some (.apiKey tokenRes)) =>
      match tokenRes with
      | .ok api_key =>
        ("已使用 API Key 登录 - " ++ (safe_format_key api_key).asString, 0)
      | .error e => ("读取 API Key 时发生意外错误：" ++ e, 1)
    | .ok (some .chatgpt) => ("已使用 ChatGPT 登录", 0)
    | .ok none => ("未登录", 1)
    | .error e => ("检查登录状态失败：" ++ e, 1)

/-- `run_logout`, as message and exit status (`Ok(false)` means there
were no credentials to remove; the command still succeeds). -/
def run_logout (parseRes : Except String Unit)
    (loadRes : Except String LoginConfig) (logoutRes : Except String Bool) :
    String × Nat :=
  match load_config_or_exit parseRes loadRes with
  | .error mc => mc
  | .ok _ =>
    match logoutRes with
    | .ok true => ("已成功退出登录", 0)
    | .ok false => ("未登录", 0)
    | .error e => ("退出登录失败：" ++ e, 1)

theorem append_ne_empty_left (s t : String) (h : s ≠ "") : s ++ t ≠ "" := by
  intro hc
  apply h
  have hlen := congrArg String.length hc
  rw [String.length_append] at hlen
  have hs : s.length = 0 := by
    have : ("" : String).length = 0 := rfl
    omega
  cases s with
  | mk data =>
    cases data with
    | nil => rfl
    | cons a l => simp [String.length] at hs

theorem load_config_or_exit_error {p : Except String Unit}
    {l : Except String LoginConfig} {mc : String × Nat}
    (h : load_config_or_exit p l = .error mc) : mc.1 ≠ "" ∧ mc.2 = 1 := by
  rcases p with e | u
  · have hm : ("解析 -c 覆盖项失败：" ++ e, 1) = mc := by
      simpa [load_config_or_exit] using h
    rw [← hm]
    exact ⟨append_ne_empty_left _ _ (by decide), rfl⟩
  · rcases l with e | c
    · have hm : ("加载配置失败：" ++ e, 1) = mc := by
        simpa [load_config_or_exit] using h
      rw [← hm]
      exact ⟨append_ne_empty_left _ _ (by decide), rfl⟩
    · simp [load_config_or_exit] at h

theorem chatgpt_handler_spec (p : Except String Unit)
    (l : Except String LoginConfig) (lg : Except String Unit) :
    (run_login_with_chatgpt p l lg).1 ≠ "" ∧
    ((run_login_with_chatgpt p l lg).2 = 0 ∨ (run_login_with_chatgpt p l lg).2 = 1) ∧
    ((run_login_with_chatgpt p l lg).2 = 0 ↔
      (∃ c, load_config_or_exit p l = .ok c ∧
        c.forced_login_method ≠ some .Api) ∧ lg = .ok ()) := by
  rcases hlc : load_config_or_exit p l with mc | c
  · obtain ⟨hm1, hm2⟩ := load_config_or_exit_error hlc
    have hrun : run_login_with_chatgpt p l lg = mc := by
      simp [run_login_with_chatgpt, hlc]
    rw [hrun, hm2]
    exact ⟨hm1, Or.inr rfl, by simp [hlc]⟩
  · have hrun : run_login_with_chatgpt p l lg =
        if c.forced_login_method = some .Api then
          ("已禁用 ChatGPT 登录，请改用 API Key 登录。", 1)
        else
          match lg with
          | .ok _ => ("登录成功", 0)
          | .error e => ("登录失败：" ++ e, 1) := by
      simp [run_login_with_chatgpt, hlc]
    by_cases hf : c.forced_login_method = some .Api
    · rw [hrun, if_pos hf]
      exact ⟨by decide, Or.inr rfl, by simp [hlc, hf]⟩
    · rcases lg with e | ⟨⟩
      · rw [hrun, if_neg hf]
        exact ⟨append_ne_empty_left _ _ (by decide), Or.inr rfl, by simp [hlc, hf]⟩
      · rw [hrun, if_neg hf]
        refine ⟨by simp, Or.inl rfl, by simp [hlc, hf]⟩

theorem api_key_handler_spec (p : Except String Unit)
    (l : Except String LoginConfig) (ak : Except String Unit) :
    (run_login_with_api_key p l ak).1 ≠ "" ∧
    ((run_login_with_api_key p l ak).2 = 0 ∨ (run_login_with_api_key p l ak).2 = 1) ∧
    ((run_login_with_api_key p l ak).2 = 0 ↔
      (∃ c, load_config_or_exit p l = .ok c ∧
        c.forced_login_method ≠ some .Chatgpt) ∧ ak = .ok ()) := by
  rcases hlc : load_config_or_exit p l with mc | c
  · obtain ⟨hm1, hm2⟩ := load_config_or_exit_error hlc
    have hrun : run_login_with_api_key p l ak = mc := by
      simp [run_login_with_api_key, hlc]
    rw [hrun, hm2]
    exact ⟨hm1, Or.inr rfl, by simp [hlc]⟩
  · have hrun : run_login_with_api_key p l ak =
        if c.forced_login_method = some .Chatgpt then
          ("已禁用 API Key 登录，请改用 ChatGPT 登录。", 1)
        else
          match ak with
          | .ok _ => ("登录成功", 0)
          | .error e => ("登录失败：" ++ e, 1) := by
      simp [run_login_with_api_key, hlc]
    by_cases hf : c.forced_login_method = some .Chatgpt
    · rw [hrun, if_pos hf]
      exact ⟨by decide, Or.inr rfl, by simp [hlc, hf]⟩
    · rcases ak with e | ⟨⟩
      · rw [hrun, if_neg hf]
        exact ⟨append_ne_empty_left _ _ (by decide), Or.inr rfl, by simp [hlc, hf]⟩
      · rw [hrun, if_neg hf]
        refine ⟨by simp, Or.inl rfl, by simp [hlc, hf]⟩

theorem status_handler_spec (p : Except String Unit)
    (l : Except String LoginConfig)
    (au : Except String (Option AuthModeState)) :
    (run_login_status p l au).1 ≠ "" ∧
    ((run_login_status p l au).2 = 0 ∨ (run_login_status p l au).2 = 1) ∧
    ((run_login_status p l au).2 = 0 ↔
      (∃ c, load_config_or_exit p l = .ok c) ∧
      ((∃ tok, au = .ok (some (.apiKey (.ok tok)))) ∨ au = .ok (some .chatgpt))) := by
  rcases hlc : load_config_or_exit p l with mc | c
  · obtain ⟨hm1, hm2⟩ := load_config_or_exit_error hlc
    have hrun : run_login_status p l au = mc := by
      simp [run_login_status, hlc]
    rw [hrun, hm2]
    exact ⟨hm1, Or.inr rfl, by simp [hlc]⟩
  · have hrun : run_login_status p l au =
        match au with
        | .ok (some (.apiKey tokenRes)) =>
          match tokenRes with
          | .ok api_key =>
            ("已使用 API Key 登录 - " ++ (safe_format_key api_key).asString, 0)
          | .error e => ("读取 API Key 时发生意外错误：" ++ e, 1)
        | .ok (some .chatgpt) => ("已使用 ChatGPT 登录", 0)
        | .ok none => ("未登录", 1)
        | .error e => ("检查登录状态失败：" ++ e, 1) := by
      simp [run_login_status, hlc]
    rcases au with e | oa
    · rw [hrun]
      exact ⟨append_ne_empty_left _ _ (by decide), Or.inr rfl, by simp [hlc]⟩
    · rcases oa with _ | am
      · rw [hrun]
        exact ⟨by decide, Or.inr rfl, by simp [hlc]⟩
      · rcases am with tr | _
        · rcases tr with e | tok
          · rw [hrun]
            exact ⟨append_ne_empty_left _ _ (by decide), Or.inr rfl, by simp [hlc]⟩
          · rw [hrun]
            exact ⟨append_ne_empty_left _ _ (by decide), Or.inl rfl, by simp [hlc]⟩
        · rw [hrun]
          exact ⟨by decide, Or.inl rfl, by simp [hlc]⟩

theorem logout_handler_spec (p : Except String Unit)
    (l : Except String LoginConfig) (lo : Except String Bool) :
    (run_logout p l lo).1 ≠ "" ∧
    ((run_logout p l lo).2 = 0 ∨ (run_logout p l lo).2 = 1) ∧
    ((run_logout p l lo).2 = 0 ↔
      (∃ c, load_config_or_exit p l = .ok c) ∧ ∃ b, lo = .ok b) := by
  rcases hlc : load_config_or_exit p l with mc | c
  · obtain ⟨hm1, hm2⟩ := load_config_or_exit_error hlc
    have hrun : run_logout p l lo = mc := by
      simp [run_logout, hlc]
    rw [hrun, hm2]
    exact ⟨hm1, Or.inr rfl, by simp [hlc]⟩
  · have hrun : run_logout p l lo =
        match lo with
        | .ok true => ("已成功退出登录", 0)
        | .ok false => ("未登录", 0)
        | .error e => ("退出登录失败：" ++ e, 1) := by
      simp [run_logout, hlc]
    rcases lo with e | b
    · rw [hrun]
      exact ⟨append_ne_empty_left _ _ (by decide), Or.inr rfl, by simp [hlc]⟩
    · cases b
      · rw [hrun]
        exact ⟨by decide, Or.inl rfl, by simp [hlc]⟩
      · rw [hrun]
        exact ⟨by decide, Or.inl rfl, by simp [hlc]⟩

/-- C4: each of the four top-level login handlers (`login` with ChatGPT,
`login --with-api-key`, `login status`, `logout`) always prints a
nonempty localized message to stderr and exits with status 0 or 1, and
exits 0 exactly on its success outcomes: a completed login (config
loaded, method not blocked, login step succeeded), a readable
authentication (API key readable or ChatGPT), and a logout call that
returned without error (with or without stored credentials); every other
outcome exits 1. -/
theorem login_handlers_exit_discipline (p : Except String Unit)
    (l : Except String LoginConfig) (lg ak : Except String Unit)
    (au : Except String (Option AuthModeState)) (lo : Except String Bool) :
    ((run_login_with_chatgpt p l lg).1 ≠ "" ∧
     ((run_login_with_chatgpt p l lg).2 = 0 ∨ (run_login_with_chatgpt p l lg).2 = 1) ∧
     ((run_login_with_chatgpt p l lg).2 = 0 ↔
       (∃ c, load_config_or_exit p l = .ok c ∧
         c.forced_login_method ≠ some .Api) ∧ lg = .ok ())) ∧
    ((run_login_with_api_key p l ak).1 ≠ "" ∧
     ((run_login_with_api_key p l ak).2 = 0 ∨ (run_login_with_api_key p l ak).2 = 1) ∧
     ((run_login_with_api_key p l ak).2 = 0 ↔
       (∃ c, load_config_or_exit p l = .ok c ∧
         c.forced_login_method ≠ some .Chatgpt) ∧ ak = .ok ())) ∧
    ((run_login_status p l au).1 ≠ "" ∧
     ((run_login_status p l au).2 = 0 ∨ (run_login_status p l au).2 = 1) ∧
     ((run_login_status p l au).2 = 0 ↔
       (∃ c, load_config_or_exit p l = .ok c) ∧
       ((∃ tok, au = .ok (some (.apiKey (.ok tok)))) ∨ au = .ok (some .chatgpt)))) ∧
    ((run_logout p l lo).1 ≠ "" ∧
     ((run_logout p l lo).2 = 0 ∨ (run_logout p l lo).2 = 1) ∧
     ((run_logout p l lo).2 = 0 ↔
       (∃ c, load_config_or_exit p l = .ok c) ∧ ∃ b, lo = .ok b)) :=
  ⟨chatgpt_handler_spec p l lg, api_key_handler_spec p l ak,
   status_handler_spec p l au, logout_handler_spec p l lo⟩

/-- C5: `safe_format_key` fully masks keys of (byte) length at most 13
and otherwise keeps the first 8 and last 5 positions around `***`. -/
theorem safe_format_key_spec (key : List Char) :
    (key.length ≤ 13 → safe_format_key key = "***".toList) ∧
    (¬ key.length ≤ 13 →
      safe_format_key key =
        key.take 8 ++ "***".toList ++ key.drop (key.length - 5)) := by
  constructor
  · intro h
    simp [safe_format_key, h]
  · intro h
    simp [safe_format_key, h]

/-- Witness for C5 on the unit-test keys of `login.rs`. -/
theorem safe_format_key_spec_witness :
    safe_format_key "sk-proj-12345".toList = "***".toList ∧
    safe_format_key "sk-proj-1234567890ABCDE".toList = "sk-proj-***ABCDE".toList := by
  constructor
  · exact (safe_format_key_spec _).1 (by decide)
  · have h := (safe_format_key_spec "sk-proj-1234567890ABCDE".toList).2 (by decide)
    rw [h]
    decide

/-- C9: `safe_format_key` reveals nothing about the middle of a key: any
two keys of byte length at most 13 get the same output, and any two
longer keys agreeing on the first 8 and last 5 bytes get the same
output, whatever lies in between. -/
theorem safe_format_key_hides_middle (k₁ k₂ : List Char) :
    (k₁.length ≤ 13 → k₂.length ≤ 13 → safe_format_key k₁ = safe_format_key k₂) ∧
    (13 < k₁.length → 13 < k₂.length →
      k₁.take 8 = k₂.take 8 →
      k₁.drop (k₁.length - 5) = k₂.drop (k₂.length - 5) →
      safe_format_key k₁ = safe_format_key k₂) := by
  constructor
  · intro h1 h2
    simp [safe_format_key, h1, h2]
  · intro h1 h2 hp hs
    have n1 : ¬ k₁.length ≤ 13 := by omega
    have n2 : ¬ k₂.length ≤ 13 := by omega
    simp [safe_format_key, n1, n2, hp, hs]

/-- Witness for C9: two short keys agree; two long keys with different
middles but equal prefix/suffix agree. -/
theorem safe_format_key_hides_middle_witness :
    safe_format_key "short-a".toList = safe_format_key "short-other-b".toList ∧
    safe_format_key "AAAAAAAAmiddleZZZZZ".toList =
      safe_format_key "AAAAAAAAdifferentmiddleZZZZZ".toList :=
  ⟨(safe_format_key_hides_middle _ _).1 (by decide) (by decide),
   (safe_format_key_hides_middle _ _).2 (by decide) (by decide) (by decide) (by decide)⟩

/-! ## `cli/src/desktop_app/mac.rs`: installer helpers -/

/-- ASCII fragment of Rust's `char::is_whitespace` (the White_Space
characters appearing in tool output). -/
def isWs (c : Char) : Bool :=
  c = ' ' || c = '\t' || c = '\n' || c = '\r' ||
  c = Char.ofNat 11 || c = Char.ofNat 12

/-- Split a character list at every occurrence of `sep` (like Rust
`str::split`, keeping empty pieces). -/
def splitOnChar (sep : Char) : List Char → List (List Char)
  | [] => [[]]
  | c :: rest =>
    let parts := splitOnChar sep rest
    if c = sep then [] :: parts
    else
      match parts with
      | [] => [[c]]
      | p :: ps => (c :: p) :: ps

/-- Drop one trailing carriage return (Rust `str::lines` tolerates
`\r\n` endings). -/
def stripCr (l : List Char) : List Char :=
  if l.getLast? = some '\r' then l.dropLast else l

/-- Rust `str::lines`: split at `\n`, drop the final empty piece that a
trailing newline produces, strip a trailing `\r` from each line. -/
def rustLines (s : List Char) : List (List Char) :=
  if s = [] then []
  else
    (if s.getLast? = some '\n'
      then (splitOnChar '\n' s).dropLast
      else splitOnChar '\n' s).map stripCr

/-- Rust `str::contains(pat)`: substring occurrence. -/
def listContainsSub (pat s : List Char) : Bool :=
  (List.range (s.length + 1)).any (fun i => pat.isPrefixOf (s.drop i))

/-- Rust `str::rsplit_once(c)`: split at the *last* occurrence of `c`,
returning the pieces before and after it. -/
def rsplitOnce (sep : Char) : List Char → Option (List Char × List Char)
  | [] => none
  | c :: rest =>
    match rsplitOnce sep rest with
    | some (b, a) => some (c :: b, a)
    | none => if c = sep then some ([], rest) else none

/-- Rust `str::trim`. -/
def trimList (s : List Char) : List Char :=
  ((s.dropWhile isWs).reverse.dropWhile isWs).reverse

/-- Accumulator loop for `split_whitespace`. -/
def splitWsAux : List Char → List Char → List (List Char)
  | [], acc => if acc = [] then [] else [acc.reverse]
  | c :: rest, acc =>
    if isWs c then
      if acc = [] then splitWsAux rest []
      else acc.reverse :: splitWsAux rest []
    else splitWsAux rest (c :: acc)

/-- Rust `str::split_whitespace`: maximal non-whitespace runs. -/
def split_whitespace (s : List Char) : List (List Char) :=
  splitWsAux s []

/-- `parse_hdiutil_attach_mount_point`: `find_map` over the lines; a
line not containing `/Volumes/` yields nothing; a line with a tab yields
the trimmed text after the last tab; otherwise the first
whitespace-delimited field starting with `/Volumes/` (if any). -/
def parse_hdiutil_attach_mount_point (output : List Char) : Option (List Char) :=
  (rustLines output).findSome? (fun line =>
    if listContainsSub "/Volumes/".toList line = false then none
    else
      match rsplitOnce '\t' line with
      | some (_, mount) => some (trimList mount)
      | none =>
        (split_whitespace line).find?
          (fun field => "/Volumes/".toList.isPrefixOf field))

/-- The per-line extraction performed by the parser's closure: `none`
for lines without `/Volumes/`, the after-last-tab text for tabbed lines,
else the first `/Volumes/`-prefixed whitespace field. -/
def lineMount (line : List Char) : Option (List Char) :=
  if listContainsSub "/Volumes/".toList line then
    match rsplitOnce '\t' line with
    | some (_, mount) => some (trimList mount)
    | none =>
      (split_whitespace line).find?
        (fun field => "/Volumes/".toList.isPrefixOf field)
  else none

/-- C6's reading of the parser, following the claim's words: the result
is determined by the *first* line containing `/Volumes/` (after-last-tab
text if it has a tab, else its first `/Volumes/`-prefixed field), and
`none` exactly when no line contains `/Volumes/`. -/
def parse_mount_point_claimed (output : List Char) : Option (List Char) :=
  match (rustLines output).find?
      (fun line => listContainsSub "/Volumes/".toList line) with
  | some line =>
    match rsplitOnce '\t' line with
    | some (_, mount) => some (trimList mount)
    | none =>
      (split_whitespace line).find?
        (fun field => "/Volumes/".toList.isPrefixOf field)
  | none => none

/-- Counterexample to C6 as stated: in
`"x/Volumes/y\na\t/Volumes/Z\n"` the first line containing `/Volumes/`
has no tab and no whitespace field starting with `/Volumes/`, so the
claimed description yields nothing, yet the code falls through to the
second line and returns `/Volumes/Z`. -/
theorem parse_mount_point_claimed_counterexample :
    parse_hdiutil_attach_mount_point "x/Volumes/y\na\t/Volumes/Z\n".toList
      = some "/Volumes/Z".toList ∧
    parse_mount_point_claimed "x/Volumes/y\na\t/Volumes/Z\n".toList = none := by
  constructor <;> decide

theorem findSome?_eq_find?_isSome {α β : Type _} (f : α → Option β) (l : List α) :
    l.findSome? f = (l.find? (fun a => (f a).isSome)).bind f := by
  induction l with
  | nil => simp
  | cons a t ih =>
    cases hf : f a with
    | some b => simp [List.findSome?_cons, List.find?_cons, hf]
    | none => simp [List.findSome?_cons, List.find?_cons, hf, ih]

/-- C6 amended: the parser scans the lines in order and returns the
result of the *first* line that yields a mount point — the trimmed text
after the last tab for a `/Volumes/`-containing line with a tab, else
that line's first whitespace field starting with `/Volumes/` — skipping
`/Volumes/`-containing lines that yield neither, and returning `none`
when no line yields a result. -/
theorem parse_mount_point_amended_spec (output : List Char) :
    parse_hdiutil_attach_mount_point output =
      ((rustLines output).find? (fun line => (lineMount line).isSome)).bind lineMount := by
  have hfun : ∀ line,
      (if listContainsSub "/Volumes/".toList line = false then none
       else
        match rsplitOnce '\t' line with
        | some (_, mount) => some (trimList mount)
        | none =>
          (split_whitespace line).find?
            (fun field => "/Volumes/".toList.isPrefixOf field))
      = lineMount line := by
    intro line
    unfold lineMount
    cases h : listContainsSub "/Volumes/".toList line <;> simp [h]
  unfold parse_hdiutil_attach_mount_point
  simp only [hfun]
  exact findSome?_eq_find?_isSome lineMount (rustLines output)

/-- One entry of the mounted volume's directory listing (the abstract
filesystem `find_codex_app_in_mount` reads; I/O errors of `read_dir`
itself are outside the claims). -/
structure DirEntry where
  name : List Char
  isDir : Bool
deriving DecidableEq, Repr

/-- Rust `Path::extension` on an entry's file name: the portion after
the final dot, none when there is no dot or when the name starts with
its only dot. -/
def rustExtension (name : List Char) : Option (List Char) :=
  match rsplitOnce '.' name with
  | none => none
  | some (before, after) => if before = [] then none else some after

/-- The predicate of the scan loop in `find_codex_app_in_mount`:
`path.extension().is_some_and(|ext| ext == "app") && path.is_dir()`. -/
def isAppDirEntry (e : DirEntry) : Bool :=
  (rustExtension e.name == some "app".toList) && e.isDir

/-- `find_codex_app_in_mount`: prefer the exact `Codex.app` directory,
else the first `.app` directory entry of the listing, else an error.
Path join is modelled as `mount ++ "/" ++ name`. -/
def find_codex_app_in_mount (mount_point : List Char) (entries : List DirEntry) :
    Except (List Char) (List Char) :=
  if entries.any (fun e => e.name = "Codex.app".toList && e.isDir) then
    .ok (mount_point ++ "/Codex.app".toList)
  else
    match entries.find? isAppDirEntry with
    | some e => .ok (mount_point ++ "/".toList ++ e.name)
    | none => .error ("在 ".toList ++ mount_point ++ " 找不到 .app 包".toList)

/-- C8: `find_codex_app_in_mount` returns `<mount>/Codex.app` when that
directory exists, otherwise the first entry that is a directory with
extension `app`, and fails with an error when no such entry exists. -/
theorem find_codex_app_spec (mount : List Char) (entries : List DirEntry) :
    ((∃ e ∈ entries, e.name = "Codex.app".toList ∧ e.isDir) →
      find_codex_app_in_mount mount entries = .ok (mount ++ "/Codex.app".toList)) ∧
    (¬ (∃ e ∈ entries, e.name = "Codex.app".toList ∧ e.isDir) →
      (∀ e, entries.find? isAppDirEntry = some e →
        find_codex_app_in_mount mount entries = .ok (mount ++ "/".toList ++ e.name)) ∧
      (entries.find? isAppDirEntry = none →
        ∃ msg, find_codex_app_in_mount mount entries = .error msg)) := by
  constructor
  · intro h
    have hany : entries.any (fun e => e.name = "Codex.app".toList && e.isDir) = true := by
      rw [List.any_eq_true]
      obtain ⟨e, he, hn, hd⟩ := h
      exact ⟨e, he, by simp [hn, hd]⟩
    unfold find_codex_app_in_mount
    rw [hany]
    simp
  · intro h
    have hany : entries.any (fun e => e.name = "Codex.app".toList && e.isDir) = false := by
      rw [Bool.eq_false_iff]
      intro hc
      rw [List.any_eq_true] at hc
      obtain ⟨e, he, hb⟩ := hc
      simp only [Bool.and_eq_true, decide_eq_true_eq] at hb
      exact h ⟨e, he, hb.1, hb.2⟩
    constructor
    · intro e hfind
      unfold find_codex_app_in_mount
      rw [hany, hfind]
      simp
    · intro hfind
      refine ⟨"在 ".toList ++ mount ++ " 找不到 .app 包".toList, ?_⟩
      unfold find_codex_app_in_mount
      rw [hany, hfind]
      simp

/-- Witness for C8 on three concrete listings: the exact bundle, a
fallback `.app` directory, and an empty-of-bundles listing. -/
theorem find_codex_app_spec_witness :
    find_codex_app_in_mount "/Volumes/Codex".toList [⟨"Codex.app".toList, true⟩]
      = .ok ("/Volumes/Codex".toList ++ "/Codex.app".toList) ∧
    find_codex_app_in_mount "/Volumes/Codex".toList
        [⟨"README".toList, false⟩, ⟨"Other.app".toList, true⟩]
      = .ok ("/Volumes/Codex".toList ++ "/".toList ++ "Other.app".toList) ∧
    ∃ msg, find_codex_app_in_mount "/Volumes/Codex".toList [⟨"README".toList, false⟩]
      = .error msg :=
  ⟨(find_codex_app_spec _ _).1 (by decide),
   ((find_codex_app_spec _ _).2 (by decide)).1 ⟨"Other.app".toList, true⟩ (by decide),
   ((find_codex_app_spec _ _).2 (by decide)).2 (by decide)⟩

/-- Outcomes of the external steps `download_and_install_codex_to_user_applications`
performs, in program order: temp-dir creation, `curl` download,
`hdiutil attach`, the locate-and-install block (find the `.app` in the
mount, then copy it), and `hdiutil detach`. -/
structure InstallEnv where
  tempdir : Except String Unit
  download : Except String Unit
  mount : Except String (List Char)
  locateInstall : Except String (List Char)
  detach : Except String Unit

/-- Observable events of one run: each external command attempt, plus
the warning printed when the detach fails. -/
inductive InstallEvent where
  | createTempDir
  | downloadDmg
  | mountDmg
  | locateAndInstall
  | detachDmg (mountPoint : List Char)
  | warnDetachFailed (mountPoint : List Char) (err : String)
deriving DecidableEq, Repr

def isDetachAttempt : InstallEvent → Bool
  | .detachDmg _ => true
  | _ => false

def isDetachWarning : InstallEvent → Bool
  | .warnDetachFailed _ _ => true
  | _ => false

/-- `download_and_install_codex_to_user_applications` as a function of
the step outcomes, returning its `Result` and the event trace: early
return on temp-dir/download/mount failure; once mounted, run the
locate-and-install block, then always attempt exactly one detach,
demoting a detach failure to a warning, and return the block's result. -/
def download_and_install_codex_to_user_applications (env : InstallEnv) :
    Except String (List Char) × List InstallEvent :=
  match env.tempdir with
  | .error e => (.error ("创建临时目录失败：" ++ e), [.createTempDir])
  | .ok _ =>
    match env.download with
    | .error e => (.error e, [.createTempDir, .downloadDmg])
    | .ok _ =>
      match env.mount with
      | .error e => (.error e, [.createTempDir, .downloadDmg, .mountDmg])
      | .ok mount_point =>
        let result := env.locateInstall
        let events := [InstallEvent.createTempDir, .downloadDmg, .mountDmg,
          .locateAndInstall, .detachDmg mount_point]
        match env.detach with
        | .ok _ => (result, events)
        | .error err => (result, events ++ [.warnDetachFailed mount_point err])

/-- C3: once the image is mounted (temp dir, download and mount all
succeeded), exactly one detach is attempted whatever the
locate-and-install block did; the function's result is exactly that
block's result, unchanged by the detach outcome; and a failed detach
only adds a warning event (a successful one adds none). -/
theorem install_detach_discipline (env : InstallEnv) (mp : List Char)
    (ht : env.tempdir = .ok ()) (hd : env.download = .ok ())
    (hm : env.mount = .ok mp) :
    ((download_and_install_codex_to_user_applications env).2.countP isDetachAttempt = 1) ∧
    ((download_and_install_codex_to_user_applications env).1 = env.locateInstall) ∧
    (env.detach = .ok () →
      (download_and_install_codex_to_user_applications env).2.countP isDetachWarning = 0) ∧
    (∀ e, env.detach = .error e →
      (download_and_install_codex_to_user_applications env).2.countP isDetachWarning = 1) := by
  unfold download_and_install_codex_to_user_applications
  rw [ht, hd, hm]
  rcases env.detach with e | ⟨⟩
  · refine ⟨?_, rfl, ?_, ?_⟩
    · simp [List.countP_cons, List.countP_append, isDetachAttempt]
    · intro hc
      simp at hc
    · intro e2 he2
      simp [List.countP_cons, List.countP_append, isDetachWarning]
  · refine ⟨?_, rfl, ?_, ?_⟩
    · simp [List.countP_cons, isDetachAttempt]
    · intro _
      simp [List.countP_cons, isDetachWarning]
    · intro e2 he2
      simp at he2

/-- Witness for C3: a run in which the copy step failed and the detach
also failed still detaches exactly once, returns the copy failure, and
prints one warning. -/
theorem install_detach_discipline_witness :
    ((download_and_install_codex_to_user_applications
        ⟨.ok (), .ok (), .ok "/Volumes/Codex".toList, .error "ditto failed",
          .error "busy"⟩).2.countP isDetachAttempt = 1) ∧
    ((download_and_install_codex_to_user_applications
        ⟨.ok (), .ok (), .ok "/Volumes/Codex".toList, .error "ditto failed",
          .error "busy"⟩).1 = .error "ditto failed") ∧
    ((download_and_install_codex_to_user_applications
        ⟨.ok (), .ok (), .ok "/Volumes/Codex".toList, .error "ditto failed",
          .error "busy"⟩).2.countP isDetachWarning = 1) := by
  have h := install_detach_discipline
    ⟨.ok (), .ok (), .ok "/Volumes/Codex".toList, .error "ditto failed", .error "busy"⟩
    "/Volumes/Codex".toList rfl rfl rfl
  exact ⟨h.1, h.2.1, h.2.2.2 "busy" rfl⟩
